import Mathlib

/-!
Verification of the tag reconciliation and mirror engine of
`gen_sync_yaml_new.py` (repository `donxan/sys_images`).

The Python source is shallowly embedded below: pure helpers become Lean
functions over `String` / `List`; network and subprocess effects are
abstracted as explicit oracle parameters; the `lru_cache` on the
destination-tag lookup becomes explicit state passing.  Strings are
modelled over their character data; the ASCII fragment used by image tags
is what all rules operate on.
-/

/- ------------------------------------------------------------------ -/
/- Module level constants (gen_sync_yaml_new.py lines 32-45).          -/
/- ------------------------------------------------------------------ -/

def MAX_WORKERS : Nat := 8

def MAX_TAGS_PER_IMAGE : Nat := 5

def SYNC_TIMEOUT : Nat := 1800

/-- `EXCLUDE_KEYWORDS` (line 42). -/
def EXCLUDE_KEYWORDS : List String :=
  ["alpha", "beta", "rc", "dev", "test", "amd64", "ppc64le", "arm64",
   "arm", "s390x", "SNAPSHOT", "debug", "main"]

/- ------------------------------------------------------------------ -/
/- Tag Normalizer: `is_exclude_tag` (lines 62-90).                     -/
/- ------------------------------------------------------------------ -/

/-- Python's `\w` on the ASCII fragment: letters, digits, underscore. -/
def wordChar (c : Char) : Bool := c.isAlphanum || c = '_'

/-- `re.search(r"-\w{9,}", tag)` (line 79): some hyphen in the string is
immediately followed by at least nine word characters. -/
def hasHashSuffix : List Char → Bool
  | [] => false
  | '-' :: rest =>
      if 9 ≤ rest.length && (rest.take 9).all wordChar then true
      else hasHashSuffix rest
  | _ :: rest => hasHashSuffix rest

/-- `re.search(r"-\d+$", tag)` (line 83): the string ends in a nonempty
run of digits immediately preceded by a hyphen. -/
def hasNumericSuffix (cs : List Char) : Bool :=
  let r := cs.reverse
  let ds := r.takeWhile Char.isDigit
  decide (0 < ds.length) && ((r.drop ds.length).head? == some '-')

/-- Leading-segment test on character lists. -/
def leadsList : List Char → List Char → Bool
  | [], _ => true
  | _ :: _, [] => false
  | a :: as, b :: bs => a == b && leadsList as bs

/-- Contiguous-substring test on character lists. -/
def infixList (needle : List Char) : List Char → Bool
  | [] => leadsList needle []
  | b :: bs => leadsList needle (b :: bs) || infixList needle bs

/-- Python `str.lower` on the ASCII fragment, over character data. -/
def lowerChars (cs : List Char) : List Char := cs.map Char.toLower

/-- The keyword rule of `is_exclude_tag` (lines 74-76):
`keyword.lower() in tag.lower()` for some excluded keyword. -/
def hasExcludeKeyword (tag : String) : Bool :=
  EXCLUDE_KEYWORDS.any
    (fun kw => infixList (lowerChars kw.data) (lowerChars tag.data))

/-- `ImageSync.is_exclude_tag` (lines 62-90).  The `isinstance` guard is
vacuous in the typed embedding; `if not tag` is the empty-string test. -/
def is_exclude_tag (tag : String) : Bool :=
  if tag = "" then true
  else if 40 ≤ tag.length then true
  else if hasExcludeKeyword tag then true
  else if hasHashSuffix tag.data then true
  else if hasNumericSuffix tag.data then false
  else if tag.data.contains '-' then true
  else false

/- ------------------------------------------------------------------ -/
/- Version Ranker: `_version_key` (lines 238-254) and the sorting      -/
/- step of the tag fetchers (lines 120-124 etc.).                      -/
/- ------------------------------------------------------------------ -/

/-- Python `str.split(sep)` for a one-character separator, over
character data: always at least one piece, empty pieces preserved. -/
def splitOnChar (sep : Char) : List Char → List (List Char)
  | [] => [[]]
  | c :: cs =>
      if c = sep then [] :: splitOnChar sep cs
      else
        match splitOnChar sep cs with
        | [] => [[c]]
        | p :: ps => (c :: p) :: ps

/-- `int(part)` for a digit string. -/
def digitsToNat (cs : List Char) : Nat :=
  cs.foldl (fun a c => a * 10 + (c.toNat - 48)) 0

/-- One component of the `_version_key` tuple: Python `int` or `str`. -/
inductive VComp where
  | num (n : Nat)
  | txt (s : List Char)
deriving DecidableEq, Repr

/-- `ImageSync._version_key` (lines 238-254): strip one leading `v`,
split on `.`, map digit-only components to integers, keep the rest as
strings.  (The `try` body cannot raise on a string input, so the
`except` fallback `(0, 0, 0)` is dead in this model.) -/
def _version_key (version : String) : List VComp :=
  let v := match version.data with
    | 'v' :: rest => rest
    | cs => cs
  (splitOnChar '.' v).map
    (fun part =>
      if 0 < part.length && part.all Char.isDigit then
        VComp.num (digitsToNat part)
      else VComp.txt part)

/-- Three-way comparison of natural numbers, Python `int` order. -/
def pyNatCmp (a b : Nat) : Ordering :=
  if a < b then .lt else if b < a then .gt else .eq

/-- Three-way comparison of Python strings: lexicographic on code
points, a proper leading segment compares less. -/
def pyStrCmp : List Char → List Char → Ordering
  | [], [] => .eq
  | [], _ :: _ => .lt
  | _ :: _, [] => .gt
  | a :: as, b :: bs =>
      if a < b then .lt else if b < a then .gt else pyStrCmp as bs

/-- Comparing one tuple component in Python: `int` vs `int` and `str`
vs `str` succeed; a mixed pair raises `TypeError`, modelled as `none`. -/
def pyCompareComp : VComp → VComp → Option Ordering
  | .num a, .num b => some (pyNatCmp a b)
  | .txt a, .txt b => some (pyStrCmp a b)
  | _, _ => none

/-- Python tuple comparison of version keys: first unequal component
decides; comparing a mixed pair raises (`none`); an exhausted tuple
compares by length. -/
def pyCompareKey : List VComp → List VComp → Option Ordering
  | [], [] => some .eq
  | [], _ :: _ => some .lt
  | _ :: _, [] => some .gt
  | a :: as, b :: bs =>
      match pyCompareComp a b with
      | none => none
      | some .eq => pyCompareKey as bs
      | some o => some o

/-- `key a >= key b` for the descending keyed sort: everything except a
definite `lt`.  Only meaningful on comparable keys. -/
def pyKeyGe (k1 k2 : List VComp) : Bool :=
  match pyCompareKey k1 k2 with
  | some .lt => false
  | _ => true

/-- Stable insertion used to model Python's stable `list.sort`. -/
def insertBy (le : α → α → Bool) (x : α) : List α → List α
  | [] => [x]
  | y :: ys => if le x y then x :: y :: ys else y :: insertBy le x ys

/-- Stable sort: for a total preorder this agrees with Python's stable
`list.sort` (every stable sort of the same input agrees). -/
def sortBy (le : α → α → Bool) : List α → List α
  | [] => []
  | x :: xs => insertBy le x (sortBy le xs)

/-- Whether the keyed sort runs without raising `TypeError`: every pair
of keys drawn from the list is comparable.  (Python's sort may raise as
soon as it compares one mixed pair; on two-element lists — where all our
concrete statements live — raising is exactly non-comparability.) -/
def allKeysComparable (tags : List String) : Bool :=
  tags.all (fun a =>
    tags.all (fun b => (pyCompareKey (_version_key a) (_version_key b)).isSome))

/-- Reverse-lexicographic comparison of tag names, `sort(reverse=True)`
on plain strings. -/
def revLexGe (a b : String) : Bool := !(pyStrCmp a.data b.data == .lt)

/-- The `try: sort(key=_version_key, reverse=True) except: sort(reverse
=True)` step shared by all tag fetchers (e.g. lines 120-124): a stable
descending sort by version key when the keys compare, otherwise plain
reverse-lexicographic order of the tag names. -/
def sortTagsDesc (tags : List String) : List String :=
  if allKeysComparable tags then
    sortBy (fun a b => pyKeyGe (_version_key a) (_version_key b)) tags
  else sortBy revLexGe tags

/-- `ImageSync.get_gcr_tags` (lines 108-130) with the HTTP fetch
abstracted as an oracle: `none` models any request failure (yielding
`[]`), `some raw` a successful tag-list payload, which is then filtered
through the normalizer and ranked. -/
def get_gcr_tags (net : String → String → Option (List String))
    (repo image : String) : List String :=
  match net repo image with
  | none => []
  | some raw => sortTagsDesc (raw.filter (fun t => !(is_exclude_tag t)))

/- ------------------------------------------------------------------ -/
/- Reconciler diff: `compare_and_generate_sync_list` (lines 262-282).  -/
/- ------------------------------------------------------------------ -/

/-- The pure diff step of `compare_and_generate_sync_list` (lines
267-278): early return on an empty source list, subtract the
destination's tag set preserving source order, truncate to
`MAX_TAGS_PER_IMAGE`.  The destination set is modelled as a list queried
by membership. -/
def compare_and_generate_sync_list
    (source_tags target_tags : List String) : List String :=
  if source_tags.isEmpty then []
  else (source_tags.filter (fun t => !(target_tags.contains t))).take
    MAX_TAGS_PER_IMAGE

/- ------------------------------------------------------------------ -/
/- Claim theorems: C3, C4, C5 (Tag Normalizer).                        -/
/- ------------------------------------------------------------------ -/

/-- C3 counterexample: the code has no path-separator rule.  The tag
`"1.0/2"` contains `/` yet triggers no other rule, so `is_exclude_tag`
accepts it, refuting the claim that `/` always causes rejection. -/
theorem c3_counterexample :
    ("1.0/2").data.contains '/' = true ∧ is_exclude_tag "1.0/2" = false := by
  constructor
  · decide
  · decide

/-- C3 (amended): `is_exclude_tag t = true` whenever `len(t) >= 40`, or
`t` matches the hash-suffix shape (hyphen followed by 9 or more word
characters), or `t`'s lowercase form contains an excluded keyword.  (The
claimed path-separator rule does not exist in the code.) -/
theorem c3_normalizer_rejects (t : String)
    (h : 40 ≤ t.length ∨ hasExcludeKeyword t = true ∨
      hasHashSuffix t.data = true) :
    is_exclude_tag t = true := by
  unfold is_exclude_tag
  split_ifs with g1 g2 g3 g4 g5 g6 <;>
    first
      | rfl
      | (exfalso; rcases h with h | h | h <;> simp_all)

/-- C3 witness: the amended rejection theorem applied to `"alpha"`,
whose lowercase form contains the excluded keyword `alpha`. -/
theorem c3_witness :
    hasExcludeKeyword "alpha" = true ∧ is_exclude_tag "alpha" = true :=
  ⟨by decide, c3_normalizer_rejects "alpha" (Or.inr (Or.inl (by decide)))⟩

/-- C4 counterexample: `"x-123456789"` has the shape
`<prefix>-<digits>` (a hyphen followed by a trailing digit run) and no
excluded keyword, yet the hash-suffix rule (line 79) fires first —
nine digits are nine word characters — so the tag is rejected,
refuting the claim that every such tag is accepted. -/
theorem c4_counterexample :
    hasNumericSuffix ("x-123456789").data = true ∧
    hasExcludeKeyword "x-123456789" = false ∧
    is_exclude_tag "x-123456789" = true := by
  refine ⟨by decide, by decide, by decide⟩

/-- C4 (amended): a tag of shape `<prefix>-<digits>` with no excluded
keyword is accepted, provided additionally its length is below 40 and it
does not match the hash-suffix shape (which fires before the
numeric-suffix exception and so overrides it). -/
theorem c4_numeric_suffix_accepted (t : String)
    (h1 : hasNumericSuffix t.data = true)
    (h2 : t.length < 40)
    (h3 : hasExcludeKeyword t = false)
    (h4 : hasHashSuffix t.data = false) :
    is_exclude_tag t = false := by
  have hne : t ≠ "" := by
    intro h
    subst h
    exact absurd h1 (by decide)
  unfold is_exclude_tag
  split_ifs <;> first | rfl | omega | simp_all

/-- C4 witness: the amended acceptance theorem applied to `"v1.2.3-1"`. -/
theorem c4_witness :
    hasNumericSuffix ("v1.2.3-1").data = true ∧
    ("v1.2.3-1").length < 40 ∧
    hasExcludeKeyword "v1.2.3-1" = false ∧
    hasHashSuffix ("v1.2.3-1").data = false ∧
    is_exclude_tag "v1.2.3-1" = false :=
  ⟨by decide, by decide, by decide, by decide,
    c4_numeric_suffix_accepted "v1.2.3-1" (by decide) (by decide) (by decide)
      (by decide)⟩

/-- C5 counterexample: the code has no leading-digit-run rule.  The tag
`"20240101"` starts with eight digits yet `is_exclude_tag` accepts it,
refuting the claim that such tags are always rejected. -/
theorem c5_counterexample :
    8 ≤ ("20240101").length ∧
    (("20240101").data.take 8).all Char.isDigit = true ∧
    is_exclude_tag "20240101" = false := by
  refine ⟨by decide, by decide, by decide⟩

/-- C5 (amended): rejection is exactly characterized by the rules the
code does have — empty tag, length at least 40, excluded keyword,
hash-suffix shape, or a hyphen without trailing numeric suffix.  There
is no rule about leading digit runs, and in particular `"20240101"`
(eight leading digits) is accepted. -/
theorem c5_rejection_characterization :
    (∀ t : String, is_exclude_tag t = true ↔
      (t = "" ∨ 40 ≤ t.length ∨ hasExcludeKeyword t = true ∨
        hasHashSuffix t.data = true ∨
        (hasNumericSuffix t.data = false ∧ t.data.contains '-' = true))) ∧
    is_exclude_tag "20240101" = false := by
  refine ⟨fun t => ?_, by decide⟩
  unfold is_exclude_tag
  split_ifs with g1 g2 g3 g4 g5 g6 <;> simp_all

/- ------------------------------------------------------------------ -/
/- Comparison lemmas for the Version Ranker.                           -/
/- ------------------------------------------------------------------ -/

theorem pyStrCmp_self (cs : List Char) : pyStrCmp cs cs = .eq := by
  induction cs with
  | nil => rfl
  | cons c cs ih => simp [pyStrCmp, lt_irrefl, ih]

theorem pyCompareComp_self (c : VComp) : pyCompareComp c c = some .eq := by
  cases c with
  | num n => simp [pyCompareComp, pyNatCmp, lt_irrefl]
  | txt s => simp [pyCompareComp, pyStrCmp_self]

theorem pyNatCmp_swap (a b : Nat) : pyNatCmp b a = (pyNatCmp a b).swap := by
  rcases lt_trichotomy a b with h | h | h
  · simp [pyNatCmp, h, asymm h, Ordering.swap]
  · simp [pyNatCmp, h, lt_irrefl, Ordering.swap]
  · simp [pyNatCmp, h, asymm h, Ordering.swap]

theorem pyStrCmp_swap (as bs : List Char) :
    pyStrCmp bs as = (pyStrCmp as bs).swap := by
  induction as generalizing bs with
  | nil => cases bs <;> rfl
  | cons a as ih =>
    cases bs with
    | nil => rfl
    | cons b bs =>
      rcases lt_trichotomy a b with h | h | h
      · simp [pyStrCmp, h, asymm h, Ordering.swap]
      · subst h
        simp [pyStrCmp, lt_irrefl, ih]
      · simp [pyStrCmp, h, asymm h, Ordering.swap]

theorem pyCompareComp_swap (a b : VComp) :
    pyCompareComp b a = (pyCompareComp a b).map Ordering.swap := by
  cases a with
  | num x =>
    cases b with
    | num y =>
      show some (pyNatCmp y x) = _
      rw [pyNatCmp_swap]
      rfl
    | txt t => rfl
  | txt s =>
    cases b with
    | num y => rfl
    | txt t =>
      show some (pyStrCmp t s) = _
      rw [pyStrCmp_swap]
      rfl

theorem pyCompareKey_swap (k1 k2 : List VComp) :
    pyCompareKey k2 k1 = (pyCompareKey k1 k2).map Ordering.swap := by
  induction k1 generalizing k2 with
  | nil => cases k2 <;> rfl
  | cons a as ih =>
    cases k2 with
    | nil => rfl
    | cons b bs =>
      show pyCompareKey (b :: bs) (a :: as) = _
      rw [pyCompareKey, pyCompareKey, pyCompareComp_swap]
      cases h : pyCompareComp a b with
      | none => rfl
      | some o => cases o <;> simp [Ordering.swap, ih]

theorem pyKeyGe_total (k1 k2 : List VComp)
    (h : (pyCompareKey k1 k2).isSome = true) :
    pyKeyGe k1 k2 = true ∨ pyKeyGe k2 k1 = true := by
  rcases ho : pyCompareKey k1 k2 with _ | o
  · rw [ho] at h
    exact absurd h (by simp)
  · cases o with
    | lt =>
      right
      unfold pyKeyGe
      rw [pyCompareKey_swap, ho]
      rfl
    | eq =>
      left
      unfold pyKeyGe
      rw [ho]
    | gt =>
      left
      unfold pyKeyGe
      rw [ho]

/- ------------------------------------------------------------------ -/
/- Stable-sort lemmas.                                                 -/
/- ------------------------------------------------------------------ -/

theorem perm_insertBy (le : α → α → Bool) (x : α) (l : List α) :
    (insertBy le x l).Perm (x :: l) := by
  induction l with
  | nil => exact List.Perm.refl _
  | cons y ys ih =>
    simp only [insertBy]
    split_ifs
    · exact List.Perm.refl _
    · exact (ih.cons y).trans (List.Perm.swap x y ys)

theorem perm_sortBy (le : α → α → Bool) (l : List α) :
    (sortBy le l).Perm l := by
  induction l with
  | nil => exact List.Perm.refl _
  | cons x xs ih =>
    simp only [sortBy]
    exact (perm_insertBy le x (sortBy le xs)).trans (ih.cons x)

theorem head_insertBy (le : α → α → Bool) (x : α) (l : List α) :
    (insertBy le x l).head? = some x ∨ (insertBy le x l).head? = l.head? := by
  cases l with
  | nil => left; rfl
  | cons y ys =>
    simp only [insertBy]
    split_ifs
    · left; rfl
    · right; rfl

theorem chain_insertBy (le : α → α → Bool) (x : α) (l : List α)
    (htot : ∀ y ∈ l, le x y = true ∨ le y x = true)
    (hc : List.Chain' (fun a b => le a b = true) l) :
    List.Chain' (fun a b => le a b = true) (insertBy le x l) := by
  induction l with
  | nil => simp [insertBy]
  | cons y ys ih =>
    simp only [insertBy]
    split_ifs with h
    · exact List.Chain'.cons h hc
    · have hyx : le y x = true := by
        rcases htot y (by simp) with h1 | h1
        · exact absurd h1 h
        · exact h1
      have hc' := ih (fun z hz => htot z (by simp [hz])) hc.tail
      rw [List.chain'_cons']
      refine ⟨fun b hb => ?_, hc'⟩
      rcases head_insertBy le x ys with hh | hh
      · rw [hh] at hb
        simp only [Option.mem_def, Option.some.injEq] at hb
        subst hb
        exact hyx
      · rw [hh] at hb
        exact (List.chain'_cons'.mp hc).1 b hb

theorem chain_sortBy (le : α → α → Bool) (l : List α)
    (htot : ∀ a ∈ l, ∀ b ∈ l, le a b = true ∨ le b a = true) :
    List.Chain' (fun a b => le a b = true) (sortBy le l) := by
  induction l with
  | nil => simp [sortBy]
  | cons x xs ih =>
    simp only [sortBy]
    apply chain_insertBy
    · intro y hy
      have hy' : y ∈ xs := (perm_sortBy le xs).mem_iff.mp hy
      exact htot x (by simp) y (by simp [hy'])
    · exact ih (fun a ha b hb => htot a (by simp [ha]) b (by simp [hb]))

/- ------------------------------------------------------------------ -/
/- Claim theorems: C6, C7 (Version Ranker).                            -/
/- ------------------------------------------------------------------ -/

/-- C6 counterexample: the keys of `"1.2"` and `"1.x"` first differ at
a numeric-vs-non-numeric position.  Comparing them yields no result
(Python raises `TypeError`), and the descending sort — falling back to
plain reverse-lexicographic order — places the NON-numeric tag first,
refuting both parts of the claim.  (`"1.x"` passes the normalizer, so
the pair genuinely reaches the sort.) -/
theorem c6_counterexample :
    pyCompareKey (_version_key "1.2") (_version_key "1.x") = none ∧
    is_exclude_tag "1.x" = false ∧
    sortTagsDesc ["1.2", "1.x"] = ["1.x", "1.2"] := by
  refine ⟨by decide, by decide, by decide⟩

/-- C6 (amended): when two version keys first differ at a position
holding one numeric and one non-numeric component, comparing the keys
yields no result at all (modelling Python's `TypeError`); the sort then
falls back to plain reverse-lexicographic order of the tag names, which
need not place the numeric-component tag first (e.g. sorting
`["1.2", "1.x"]` yields `["1.x", "1.2"]`). -/
theorem c6_mixed_comparison_fails :
    (∀ (p r1 r2 : List VComp) (a b : VComp),
      pyCompareComp a b = none →
      pyCompareKey (p ++ a :: r1) (p ++ b :: r2) = none) ∧
    sortTagsDesc ["1.2", "1.x"] = ["1.x", "1.2"] := by
  refine ⟨fun p r1 r2 a b hab => ?_, by decide⟩
  induction p with
  | nil => simp [pyCompareKey, hab]
  | cons c p ih => simp [pyCompareKey, pyCompareComp_self, ih]

/-- C6 witness: the amended theorem applied to the keys of `"1.2"` and
`"1.x"`, i.e. `(1, 2)` versus `(1, "x")`. -/
theorem c6_witness :
    pyCompareComp (VComp.num 2) (VComp.txt ['x']) = none ∧
    pyCompareKey [VComp.num 1, VComp.num 2] [VComp.num 1, VComp.txt ['x']] =
      none :=
  ⟨by decide,
    c6_mixed_comparison_fails.1 [VComp.num 1] [] [] (VComp.num 2)
      (VComp.txt ['x']) (by decide)⟩

/-- C7 counterexample: `"1.2"` and `"v1.2"` have equal version keys and
`"1.2"` is lexicographically smaller, so a reverse-lexical tie-break
would put `"v1.2"` first in both runs.  Instead the stable sort keeps
tied tags in raw input order, so the two input orders produce two
different outputs — the order is neither reverse-lexical on ties nor
independent of the raw input order. -/
theorem c7_counterexample :
    _version_key "1.2" = _version_key "v1.2" ∧
    pyStrCmp ("1.2").data ("v1.2").data = .lt ∧
    get_gcr_tags (fun _ _ => some ["1.2", "v1.2"]) "gcr.io" "img" =
      ["1.2", "v1.2"] ∧
    get_gcr_tags (fun _ _ => some ["v1.2", "1.2"]) "gcr.io" "img" =
      ["v1.2", "1.2"] := by
  refine ⟨by decide, by decide, by decide, by decide⟩

/-- C7 (amended): the ranked list is a permutation of the accepted
tags, and — whenever all key pairs are comparable — consecutive entries
are in descending key order; but ties are kept in raw input order
(Python's sort is stable), so the output is deterministic only as a
function of the raw input list, not independent of its order. -/
theorem c7_order_stable :
    (∀ tags : List String, (sortTagsDesc tags).Perm tags) ∧
    (∀ tags : List String, allKeysComparable tags = true →
      List.Chain'
        (fun a b => pyKeyGe (_version_key a) (_version_key b) = true)
        (sortTagsDesc tags)) ∧
    sortTagsDesc ["1.2", "v1.2"] = ["1.2", "v1.2"] ∧
    sortTagsDesc ["v1.2", "1.2"] = ["v1.2", "1.2"] := by
  refine ⟨fun tags => ?_, fun tags h => ?_, by decide, by decide⟩
  · unfold sortTagsDesc
    split_ifs <;> exact perm_sortBy _ tags
  · unfold sortTagsDesc
    rw [if_pos h]
    apply chain_sortBy
    intro a ha b hb
    apply pyKeyGe_total
    simp only [allKeysComparable, List.all_eq_true] at h
    exact h a ha b hb

/-- C7 witness: the descending-chain part of the amended theorem at the
comparable list `["1.2", "v1.2"]`. -/
theorem c7_witness :
    allKeysComparable ["1.2", "v1.2"] = true ∧
    List.Chain' (fun a b => pyKeyGe (_version_key a) (_version_key b) = true)
      (sortTagsDesc ["1.2", "v1.2"]) :=
  ⟨by decide, c7_order_stable.2.1 ["1.2", "v1.2"] (by decide)⟩

/- ------------------------------------------------------------------ -/
/- Source dispatch: `source_handlers` / `get_source_tags`              -/
/- (lines 49-57, 256-260) and the other fetchers (lines 132-236).      -/
/- ------------------------------------------------------------------ -/

/-- The keys of `ImageSync.source_handlers` (lines 49-57). -/
def sourceHandlerHosts : List String :=
  ["gcr.io", "k8s.gcr.io", "registry.k8s.io", "quay.io",
   "docker.elastic.co", "ghcr.io", "docker.io"]

/-- `ImageSync.get_quay_tags` (lines 132-156): fetch via its endpoint
(abstracted as the oracle), filter, rank. -/
def get_quay_tags (net : String → String → Option (List String))
    (repo image : String) : List String :=
  match net repo image with
  | none => []
  | some raw => sortTagsDesc (raw.filter (fun t => !(is_exclude_tag t)))

/-- `ImageSync.get_elastic_tags` (lines 158-178). -/
def get_elastic_tags (net : String → String → Option (List String))
    (repo image : String) : List String :=
  match net repo image with
  | none => []
  | some raw => sortTagsDesc (raw.filter (fun t => !(is_exclude_tag t)))

/-- `ImageSync.get_ghcr_tags` (lines 180-203). -/
def get_ghcr_tags (net : String → String → Option (List String))
    (repo image : String) : List String :=
  match net repo image with
  | none => []
  | some raw => sortTagsDesc (raw.filter (fun t => !(is_exclude_tag t)))

/-- `ImageSync.get_docker_io_tags` (lines 205-236): a Docker Hub image
must be `namespace/name`, otherwise the fetch is skipped with `[]`. -/
def get_docker_io_tags (net : String → String → Option (List String))
    (repo image : String) : List String :=
  if (splitOnChar '/' image.data).length ≠ 2 then []
  else
    match net repo image with
    | none => []
    | some raw => sortTagsDesc (raw.filter (fun t => !(is_exclude_tag t)))

/-- `ImageSync.get_source_tags` (lines 256-260): dispatch on the
registry host through `source_handlers`; an unknown host yields `[]`. -/
def get_source_tags (net : String → String → Option (List String))
    (repo image : String) : List String :=
  if repo = "gcr.io" then get_gcr_tags net repo image
  else if repo = "k8s.gcr.io" then get_gcr_tags net repo image
  else if repo = "registry.k8s.io" then get_gcr_tags net repo image
  else if repo = "quay.io" then get_quay_tags net repo image
  else if repo = "docker.elastic.co" then get_elastic_tags net repo image
  else if repo = "ghcr.io" then get_ghcr_tags net repo image
  else if repo = "docker.io" then get_docker_io_tags net repo image
  else []

/-- `image.split('/')[-1]` (line 271): the image's base name. -/
def lastSegment (s : String) : String :=
  String.mk ((splitOnChar '/' s.data).getLastD [])

/-- `compare_and_generate_sync_list` of lines 262-282 in full: fetch
source tags through the dispatch, fetch the destination's tags for the
base name (abstracted as an oracle), then the pure diff. -/
def compare_and_generate_sync_list_run
    (net : String → String → Option (List String))
    (target_tags_of : String → List String) (repo image : String) :
    List String :=
  compare_and_generate_sync_list (get_source_tags net repo image)
    (target_tags_of (lastSegment image))

/- ------------------------------------------------------------------ -/
/- Claim theorems: C1, C2.                                             -/
/- ------------------------------------------------------------------ -/

/-- C1: on source-ranked tags `["3.0","2.9","2.8","2.7","2.6"]` with
limit `MAX_TAGS_PER_IMAGE = 5` and destination tags `{"2.9","2.6"}`, the
reconcile diff yields `["3.0","2.8","2.7"]`: source order is preserved,
destination-present tags are removed, and nothing refills the limit. -/
theorem c1_diff_concrete :
    compare_and_generate_sync_list ["3.0", "2.9", "2.8", "2.7", "2.6"]
      ["2.9", "2.6"] = ["3.0", "2.8", "2.7"] ∧ MAX_TAGS_PER_IMAGE = 5 := by
  constructor
  · rfl
  · rfl

/-- C2: for every source snapshot and every destination snapshot, the
reconcile diff produces at most `MAX_TAGS_PER_IMAGE = 5` tags — and so
does the full reconcile for every image under arbitrary source and
destination oracles. -/
theorem c2_plan_size_bounded :
    (∀ source_tags target_tags : List String,
      (compare_and_generate_sync_list source_tags target_tags).length ≤
        MAX_TAGS_PER_IMAGE) ∧
    (∀ (net : String → String → Option (List String))
      (target_tags_of : String → List String) (repo image : String),
      (compare_and_generate_sync_list_run net target_tags_of
        repo image).length ≤ MAX_TAGS_PER_IMAGE) ∧
    MAX_TAGS_PER_IMAGE = 5 := by
  have hdiff : ∀ source_tags target_tags : List String,
      (compare_and_generate_sync_list source_tags target_tags).length ≤
        MAX_TAGS_PER_IMAGE := by
    intro source_tags target_tags
    unfold compare_and_generate_sync_list
    split
    · simp
    · simp
  exact ⟨hdiff, fun net target_tags_of repo image => hdiff _ _, rfl⟩

/- ------------------------------------------------------------------ -/
/- Mirror Executor: `sync_single_image` (lines 284-360).               -/
/- ------------------------------------------------------------------ -/

def TARGET_REGISTRY : String := "registry.cn-hangzhou.aliyuncs.com"

def TARGET_NAMESPACE : String := "ctrimg"

def TARGET_REPO : String := TARGET_REGISTRY ++ "/" ++ TARGET_NAMESPACE

/-- Outcome of one `skopeo copy` invocation (the external copy
primitive): exit 0, nonzero exit with stderr, `subprocess.TimeoutExpired`,
or any other exception. -/
inductive CopyOutcome where
  | ok (duration : Nat)
  | err (stderr : String) (duration : Nat)
  | timedOut
  | exn (msg : String)
deriving DecidableEq, Repr

/-- One per-tag record appended to `results` (lines 319-347). -/
structure TagResult where
  tag : String
  success : Bool
  error : Option String
  duration : Option Nat
deriving DecidableEq, Repr

/-- The dictionary `sync_single_image` returns (lines 353-360); the
empty-tags early return (line 287) is the `skipped` form. -/
structure SyncImageResult where
  skipped : Bool
  source : Option String
  target : Option String
  results : List TagResult
  success_count : Nat
  total_count : Nat
  success : Bool
deriving DecidableEq, Repr

/-- The per-tag body of the loop (lines 294-347): invoke the copy
primitive and record the outcome.  A timeout records `success: False`,
`error: 'timeout'`, `duration: SYNC_TIMEOUT` (lines 333-340). -/
def copyTagRecord (copy : String → String → String → CopyOutcome)
    (source_image target_image tag : String) : TagResult :=
  match copy source_image target_image tag with
  | .ok d => ⟨tag, true, none, some d⟩
  | .err stderr d => ⟨tag, false, some stderr, some d⟩
  | .timedOut => ⟨tag, false, some "timeout", some SYNC_TIMEOUT⟩
  | .exn msg => ⟨tag, false, some msg, none⟩

/-- `ImageSync.sync_single_image` (lines 284-360) with the copy
primitive abstracted as an oracle from `(source_image, target_image,
tag)` to an outcome. -/
def sync_single_image (copy : String → String → String → CopyOutcome)
    (repo image : String) (tags : List String) : SyncImageResult :=
  if tags.isEmpty then ⟨true, none, none, [], 0, 0, true⟩
  else
    let target_image := TARGET_REPO ++ "/" ++ lastSegment image
    let source_image := repo ++ "/" ++ image
    let results := tags.map (copyTagRecord copy source_image target_image)
    let success_count := (results.filter (fun r => r.success)).length
    ⟨false, some source_image, some target_image, results, success_count,
      results.length, success_count == results.length⟩

/- ------------------------------------------------------------------ -/
/- Claim theorems: C8, C10.                                            -/
/- ------------------------------------------------------------------ -/

theorem sync_single_image_results
    (copy : String → String → String → CopyOutcome) (repo image : String)
    (tags : List String) (h : tags.isEmpty = false) :
    (sync_single_image copy repo image tags).results =
      tags.map (copyTagRecord copy (repo ++ "/" ++ image)
        (TARGET_REPO ++ "/" ++ lastSegment image)) := by
  simp [sync_single_image, h]

/-- C8: a work item whose copy invocation times out is recorded as a
failure with the distinguishable error kind `timeout` (and duration
`SYNC_TIMEOUT = 1800`); every queued tag yields exactly one record at
its own position (no retry), and the remaining tags of the same image
are still processed — in particular any other tag whose copy succeeds
is recorded as a success. -/
theorem c8_timeout_recorded
    (copy : String → String → String → CopyOutcome) (repo image : String)
    (tags : List String) (i : Nat) (tg : String)
    (hi : tags[i]? = some tg)
    (ht : copy (repo ++ "/" ++ image) (TARGET_REPO ++ "/" ++ lastSegment image)
      tg = .timedOut) :
    (sync_single_image copy repo image tags).results.length = tags.length ∧
    (sync_single_image copy repo image tags).results[i]? =
      some ⟨tg, false, some "timeout", some SYNC_TIMEOUT⟩ ∧
    (∀ (j : Nat) (tg2 : String), tags[j]? = some tg2 →
      ((sync_single_image copy repo image tags).results[j]?).map
        TagResult.tag = some tg2) ∧
    (∀ (j : Nat) (tg2 : String) (d : Nat), tags[j]? = some tg2 →
      copy (repo ++ "/" ++ image) (TARGET_REPO ++ "/" ++ lastSegment image)
        tg2 = .ok d →
      (sync_single_image copy repo image tags).results[j]? =
        some ⟨tg2, true, none, some d⟩) := by
  have hne : tags.isEmpty = false := by
    cases tags
    · simp at hi
    · simp
  have hres := sync_single_image_results copy repo image tags hne
  refine ⟨?_, ?_, ?_, ?_⟩
  · rw [hres]
    exact List.length_map _ _
  · rw [hres, List.getElem?_map, hi]
    simp [copyTagRecord, ht]
  · intro j tg2 hj
    rw [hres, List.getElem?_map, hj]
    cases hc : copy (repo ++ "/" ++ image)
        (TARGET_REPO ++ "/" ++ lastSegment image) tg2 <;>
      simp [copyTagRecord, hc]
  · intro j tg2 d hj hcopy
    rw [hres, List.getElem?_map, hj]
    simp [copyTagRecord, hcopy]

/-- C8 witness: with a copy oracle that times out on tag `"a"` and
succeeds on tag `"b"`, the run records `"a"` as a timeout failure and
still records `"b"` as a success. -/
theorem c8_witness :
    ((["a", "b"] : List String))[0]? = some "a" ∧
    (sync_single_image
      (fun _ _ t => if t = "a" then CopyOutcome.timedOut else CopyOutcome.ok 7)
      "quay.io" "ns/img" ["a", "b"]).results[0]? =
      some ⟨"a", false, some "timeout", some SYNC_TIMEOUT⟩ ∧
    (sync_single_image
      (fun _ _ t => if t = "a" then CopyOutcome.timedOut else CopyOutcome.ok 7)
      "quay.io" "ns/img" ["a", "b"]).results[1]? =
      some ⟨"b", true, none, some 7⟩ := by
  have h := c8_timeout_recorded
    (fun _ _ t => if t = "a" then CopyOutcome.timedOut else CopyOutcome.ok 7)
    "quay.io" "ns/img" ["a", "b"] 0 "a" rfl rfl
  exact ⟨rfl, h.2.1, h.2.2.2 1 "b" 7 rfl rfl⟩

/-- C10: a registry host outside the fixed handler set yields `[]` from
`get_source_tags` for every image, and hence an empty reconcile result —
the image is silently omitted from the sync plan rather than reported as
an explicit unsupported-registry outcome. -/
theorem c10_unknown_registry_empty
    (net : String → String → Option (List String))
    (target_tags_of : String → List String) (repo image : String)
    (h : repo ∉ sourceHandlerHosts) :
    get_source_tags net repo image = [] ∧
    compare_and_generate_sync_list_run net target_tags_of repo image = [] := by
  simp only [sourceHandlerHosts, List.mem_cons, List.not_mem_nil, or_false,
    not_or] at h
  obtain ⟨h1, h2, h3, h4, h5, h6, h7⟩ := h
  have hsrc : get_source_tags net repo image = [] := by
    unfold get_source_tags
    split_ifs
    rfl
  refine ⟨hsrc, ?_⟩
  unfold compare_and_generate_sync_list_run
  rw [hsrc]
  rfl

/-- C10 witness: the unsupported host `"example.com"` is dropped with an
empty tag list and an empty plan entry, even though its (hypothetical)
source holds a tag. -/
theorem c10_witness :
    "example.com" ∉ sourceHandlerHosts ∧
    get_source_tags (fun _ _ => some ["1.0"]) "example.com" "team/app" = [] ∧
    compare_and_generate_sync_list_run (fun _ _ => some ["1.0"])
      (fun _ => []) "example.com" "team/app" = [] := by
  have h : "example.com" ∉ sourceHandlerHosts := by decide
  have h2 := c10_unknown_registry_empty (fun _ _ => some ["1.0"])
    (fun _ => []) "example.com" "team/app" h
  exact ⟨h, h2.1, h2.2⟩

/- ------------------------------------------------------------------ -/
/- Destination Tag Reader: `get_target_tags` (lines 92-106) under      -/
/- `@lru_cache(maxsize=1024)` (line 92), as explicit state passing.    -/
/- ------------------------------------------------------------------ -/

/-- `lru_cache`'s `maxsize` (line 92). -/
def LRU_MAXSIZE : Nat := 1024

/-- One uncached destination lookup (lines 95-106): an HTTP 200 yields
the tag set, any other status or exception yields the empty set.  The
network oracle is indexed by how many lookups the run has performed, so
a transient failure is expressible. -/
def fetchTargetTags (net : Nat → String → Option (List String))
    (calls : Nat) (image_name : String) : List String :=
  match net calls image_name with
  | some tags => tags
  | none => []

/-- The `lru_cache` state: entries most-recently-used first, plus the
count of underlying lookups performed so far. -/
structure CacheState where
  entries : List (String × List String)
  calls : Nat
deriving DecidableEq, Repr

/-- First value stored under a key. -/
def lookupEntry : List (String × List String) → String → Option (List String)
  | [], _ => none
  | e :: es, k => if e.1 = k then some e.2 else lookupEntry es k

/-- Drop the first entry stored under a key. -/
def removeEntry :
    List (String × List String) → String → List (String × List String)
  | [], _ => []
  | e :: es, k => if e.1 = k then es else e :: removeEntry es k

/-- One call of the cached `get_target_tags`: a hit returns the cached
set and refreshes recency without any lookup (flag `false`); a miss
performs the lookup, inserts the result most-recently-used and, when the
cache overflows `maxsize`, evicts the least-recently-used entry.  The
flag reports whether a network lookup happened. -/
def get_target_tags (maxsize : Nat)
    (net : Nat → String → Option (List String)) (s : CacheState)
    (image_name : String) : List String × CacheState × Bool :=
  match lookupEntry s.entries image_name with
  | some v =>
      (v, ⟨(image_name, v) :: removeEntry s.entries image_name, s.calls⟩,
        false)
  | none =>
      let v := fetchTargetTags net s.calls image_name
      let es := (image_name, v) :: s.entries
      (v, ⟨if maxsize < es.length then es.dropLast else es, s.calls + 1⟩,
        true)

/-- A run's successive cached lookups: per call the pair
`(result, lookupPerformed)`, plus the final cache state. -/
def run_target_tags (maxsize : Nat)
    (net : Nat → String → Option (List String)) :
    CacheState → List String → List (List String × Bool) × CacheState
  | s, [] => ([], s)
  | s, n :: ns =>
      let r := get_target_tags maxsize net s n
      let rest := run_target_tags maxsize net r.2.1 ns
      ((r.1, r.2.2) :: rest.1, rest.2)

/- ------------------------------------------------------------------ -/
/- Cache lemmas.                                                       -/
/- ------------------------------------------------------------------ -/

theorem lookupEntry_eq_none (es : List (String × List String)) (k : String) :
    lookupEntry es k = none ↔ k ∉ es.map Prod.fst := by
  induction es with
  | nil => simp [lookupEntry]
  | cons e es ih =>
    simp only [lookupEntry, List.map_cons, List.mem_cons]
    split_ifs with h
    · simp [h]
    · have h2 : ¬(k = e.1) := fun he => h he.symm
      simp [ih, h2]

theorem lookupEntry_removeEntry (es : List (String × List String))
    (n k : String) (h : k ≠ n) :
    lookupEntry (removeEntry es n) k = lookupEntry es k := by
  induction es with
  | nil => rfl
  | cons e es ih =>
    simp only [removeEntry]
    split_ifs with h1
    · have hek : ¬(e.1 = k) := by
        rw [h1]
        exact fun he => h he.symm
      show lookupEntry es k = lookupEntry (e :: es) k
      simp only [lookupEntry, if_neg hek]
    · simp only [lookupEntry, ih]

theorem lookupEntry_hit_update (es : List (String × List String))
    (n : String) (v : List String) (hv : lookupEntry es n = some v)
    (k : String) :
    lookupEntry ((n, v) :: removeEntry es n) k = lookupEntry es k := by
  by_cases hk : k = n
  · subst hk
    simp only [lookupEntry, if_pos rfl]
    exact hv.symm
  · have hnk : ¬((n : String) = k) := fun he => hk he.symm
    simp only [lookupEntry, if_neg hnk]
    exact lookupEntry_removeEntry es n k hk

theorem keys_removeEntry_sub (es : List (String × List String))
    (n k : String) (h : k ∈ (removeEntry es n).map Prod.fst) :
    k ∈ es.map Prod.fst := by
  induction es with
  | nil => simp [removeEntry] at h
  | cons e es ih =>
    simp only [removeEntry] at h
    split_ifs at h with h1
    · simp [h]
    · simp only [List.map_cons, List.mem_cons] at h ⊢
      rcases h with h | h
      · exact Or.inl h
      · exact Or.inr (ih h)

theorem keys_removeEntry_mem (es : List (String × List String))
    (n k : String) (hk : k ≠ n) (h : k ∈ es.map Prod.fst) :
    k ∈ (removeEntry es n).map Prod.fst := by
  induction es with
  | nil => simp at h
  | cons e es ih =>
    simp only [List.map_cons, List.mem_cons] at h
    simp only [removeEntry]
    split_ifs with h1
    · rcases h with h | h
      · exact absurd (h.trans h1) hk
      · exact h
    · simp only [List.map_cons, List.mem_cons]
      rcases h with h | h
      · exact Or.inl h
      · exact Or.inr (ih h)

theorem nodup_keys_removeEntry (es : List (String × List String))
    (n : String) (hnd : (es.map Prod.fst).Nodup) :
    ((removeEntry es n).map Prod.fst).Nodup := by
  induction es with
  | nil => simp [removeEntry]
  | cons e es ih =>
    simp only [List.map_cons, List.nodup_cons] at hnd
    simp only [removeEntry]
    split_ifs with h1
    · exact hnd.2
    · simp only [List.map_cons, List.nodup_cons]
      exact ⟨fun hm => hnd.1 (keys_removeEntry_sub es n e.1 hm), ih hnd.2⟩

theorem not_mem_keys_removeEntry (es : List (String × List String))
    (n : String) (hnd : (es.map Prod.fst).Nodup) :
    n ∉ (removeEntry es n).map Prod.fst := by
  induction es with
  | nil => simp [removeEntry]
  | cons e es ih =>
    simp only [List.map_cons, List.nodup_cons] at hnd
    simp only [removeEntry]
    split_ifs with h1
    · rw [← h1]
      exact hnd.1
    · simp only [List.map_cons, List.mem_cons, not_or]
      exact ⟨fun he => h1 he.symm, ih hnd.2⟩

theorem step_invariants (maxsize : Nat)
    (net : Nat → String → Option (List String)) (s : CacheState) (n : String)
    (hnd : (s.entries.map Prod.fst).Nodup)
    (hcard : s.entries.length < maxsize ∨ n ∈ s.entries.map Prod.fst) :
    (((get_target_tags maxsize net s n).2.1.entries.map Prod.fst).Nodup) ∧
    (∀ k, k ∈ (get_target_tags maxsize net s n).2.1.entries.map Prod.fst ↔
      (k = n ∨ k ∈ s.entries.map Prod.fst)) ∧
    (∀ k v, lookupEntry s.entries k = some v →
      lookupEntry (get_target_tags maxsize net s n).2.1.entries k = some v) ∧
    (lookupEntry (get_target_tags maxsize net s n).2.1.entries n =
      some (get_target_tags maxsize net s n).1) := by
  cases hl : lookupEntry s.entries n with
  | some v =>
    simp only [get_target_tags, hl]
    refine ⟨?_, ?_, ?_, ?_⟩
    · simp only [List.map_cons, List.nodup_cons]
      exact ⟨not_mem_keys_removeEntry s.entries n hnd,
        nodup_keys_removeEntry s.entries n hnd⟩
    · intro k
      simp only [List.map_cons, List.mem_cons]
      constructor
      · rintro (h | h)
        · exact Or.inl h
        · exact Or.inr (keys_removeEntry_sub s.entries n k h)
      · rintro (h | h)
        · exact Or.inl h
        · by_cases hk : k = n
          · exact Or.inl hk
          · exact Or.inr (keys_removeEntry_mem s.entries n k hk h)
    · intro k v' hk
      rw [lookupEntry_hit_update s.entries n v hl k]
      exact hk
    · rw [lookupEntry_hit_update s.entries n v hl n]
      exact hl
  | none =>
    have hnot : n ∉ s.entries.map Prod.fst := (lookupEntry_eq_none _ _).mp hl
    have hlen : s.entries.length < maxsize := by
      rcases hcard with h | h
      · exact h
      · exact absurd h hnot
    have hno : ¬(maxsize <
        ((n, fetchTargetTags net s.calls n) :: s.entries).length) := by
      simp only [List.length_cons]
      omega
    simp only [get_target_tags, hl, if_neg hno]
    refine ⟨?_, ?_, ?_, ?_⟩
    · simp only [List.map_cons, List.nodup_cons]
      exact ⟨hnot, hnd⟩
    · intro k
      simp [List.mem_cons]
    · intro k v' hk
      have hkn : ¬((n : String) = k) := by
        intro he
        rw [he] at hl
        rw [hl] at hk
        exact Option.noConfusion hk
      simp only [lookupEntry, if_neg hkn]
      exact hk
    · simp [lookupEntry]

theorem head_capacity (maxsize : Nat) (s : CacheState) (n : String)
    (ns : List String)
    (hnd : (s.entries.map Prod.fst).Nodup)
    (hcap : ((s.entries.map Prod.fst) ++ n :: ns).toFinset.card ≤ maxsize) :
    s.entries.length < maxsize ∨ n ∈ s.entries.map Prod.fst := by
  by_cases hm : n ∈ s.entries.map Prod.fst
  · exact Or.inr hm
  · left
    have h1 : (s.entries.map Prod.fst).toFinset.card = s.entries.length := by
      rw [List.toFinset_card_of_nodup hnd, List.length_map]
    have h2 : insert n (s.entries.map Prod.fst).toFinset ⊆
        ((s.entries.map Prod.fst) ++ n :: ns).toFinset := by
      intro x hx
      rcases Finset.mem_insert.mp hx with h | h
      · subst h
        simp
      · rw [List.mem_toFinset] at h
        simp [h]
    have h3 := Finset.card_le_card h2
    rw [Finset.card_insert_of_not_mem (by rw [List.mem_toFinset]; exact hm)]
      at h3
    omega

theorem step_capacity (maxsize : Nat)
    (net : Nat → String → Option (List String)) (s : CacheState) (n : String)
    (ns : List String)
    (hmem : ∀ k,
      k ∈ (get_target_tags maxsize net s n).2.1.entries.map Prod.fst ↔
        (k = n ∨ k ∈ s.entries.map Prod.fst))
    (hcap : ((s.entries.map Prod.fst) ++ n :: ns).toFinset.card ≤ maxsize) :
    (((get_target_tags maxsize net s n).2.1.entries.map Prod.fst) ++
      ns).toFinset.card ≤ maxsize := by
  have hsub :
      (((get_target_tags maxsize net s n).2.1.entries.map Prod.fst) ++
        ns).toFinset ⊆
        ((s.entries.map Prod.fst) ++ n :: ns).toFinset := by
    intro x hx
    rw [List.mem_toFinset, List.mem_append] at hx
    rw [List.mem_toFinset, List.mem_append, List.mem_cons]
    rcases hx with hx | hx
    · rcases (hmem x).mp hx with h | h
      · exact Or.inr (Or.inl h)
      · exact Or.inl h
    · exact Or.inr (Or.inr hx)
  exact le_trans (Finset.card_le_card hsub) hcap

theorem run_target_tags_stable (maxsize : Nat)
    (net : Nat → String → Option (List String)) :
    ∀ (names : List String) (s : CacheState),
      (s.entries.map Prod.fst).Nodup →
      (((s.entries.map Prod.fst) ++ names).toFinset.card ≤ maxsize) →
      ∀ (k : String) (v : List String), lookupEntry s.entries k = some v →
      ∀ (j : Nat), names[j]? = some k →
        (run_target_tags maxsize net s names).1[j]? = some (v, false) := by
  intro names
  induction names with
  | nil =>
    intro s _ _ k v _ j hj
    simp at hj
  | cons n ns ih =>
    intro s hnd hcap k v hk j hj
    obtain ⟨hnd', hmem', hpres, hself⟩ := step_invariants maxsize net s n hnd
      (head_capacity maxsize s n ns hnd hcap)
    cases j with
    | zero =>
      rw [List.getElem?_cons_zero] at hj
      injection hj with hj
      subst hj
      simp only [run_target_tags, List.getElem?_cons_zero]
      simp only [get_target_tags, hk]
    | succ j' =>
      rw [List.getElem?_cons_succ] at hj
      simp only [run_target_tags, List.getElem?_cons_succ]
      exact ih ((get_target_tags maxsize net s n).2.1) hnd'
        (step_capacity maxsize net s n ns hmem' hcap) k v (hpres k v hk) j' hj

theorem run_repeat_lookup (maxsize : Nat)
    (net : Nat → String → Option (List String)) :
    ∀ (names : List String) (s : CacheState),
      (s.entries.map Prod.fst).Nodup →
      (((s.entries.map Prod.fst) ++ names).toFinset.card ≤ maxsize) →
      ∀ (i j : Nat), i < j → ∀ (n : String),
        names[i]? = some n → names[j]? = some n →
      ∀ (vi : List String) (bi : Bool),
        (run_target_tags maxsize net s names).1[i]? = some (vi, bi) →
        (run_target_tags maxsize net s names).1[j]? = some (vi, false) := by
  intro names
  induction names with
  | nil =>
    intro s _ _ i j _ n hi
    simp at hi
  | cons m ns ih =>
    intro s hnd hcap i j hij n hi hj vi bi houti
    obtain ⟨hnd', hmem', hpres, hself⟩ := step_invariants maxsize net s m hnd
      (head_capacity maxsize s m ns hnd hcap)
    cases i with
    | zero =>
      rw [List.getElem?_cons_zero] at hi
      injection hi with hi
      subst hi
      obtain ⟨j', rfl⟩ : ∃ j', j = j' + 1 := ⟨j - 1, by omega⟩
      rw [List.getElem?_cons_succ] at hj
      simp only [run_target_tags, List.getElem?_cons_zero] at houti
      have hv : (get_target_tags maxsize net s m).1 = vi := by
        simp only [Option.some.injEq, Prod.mk.injEq] at houti
        exact houti.1
      simp only [run_target_tags, List.getElem?_cons_succ]
      exact run_target_tags_stable maxsize net ns
        ((get_target_tags maxsize net s m).2.1) hnd'
        (step_capacity maxsize net s m ns hmem' hcap) m vi (hv ▸ hself) j' hj
    | succ i' =>
      obtain ⟨j', rfl⟩ : ∃ j', j = j' + 1 := ⟨j - 1, by omega⟩
      rw [List.getElem?_cons_succ] at hi hj
      simp only [run_target_tags, List.getElem?_cons_succ] at houti ⊢
      exact ih ((get_target_tags maxsize net s m).2.1) hnd'
        (step_capacity maxsize net s m ns hmem' hcap) i' j' (by omega) n hi hj
        vi bi houti

theorem miss_state (maxsize : Nat)
    (net : Nat → String → Option (List String)) (s : CacheState)
    (n : String) (h : lookupEntry s.entries n = none)
    (hlen : s.entries.length ≤ maxsize) :
    (get_target_tags maxsize net s n).2.1.entries =
      ((n, fetchTargetTags net s.calls n) :: s.entries).take maxsize ∧
    (get_target_tags maxsize net s n).2.1.calls = s.calls + 1 := by
  simp only [get_target_tags, h]
  refine ⟨?_, by trivial⟩
  by_cases hc : maxsize < s.entries.length + 1
  · have he : s.entries.length = maxsize := by omega
    rw [if_pos (by simp only [List.length_cons]; omega)]
    rw [List.dropLast_eq_take]
    simp only [List.length_cons, Nat.add_sub_cancel]
    rw [he]
  · rw [if_neg (by simp only [List.length_cons]; omega)]
    rw [List.take_of_length_le (by simp only [List.length_cons]; omega)]

theorem take_append_take (c : Nat) (A B : List α) :
    (A ++ B.take c).take c = (A ++ B).take c := by
  rw [List.take_append_eq_append_take, List.take_append_eq_append_take,
    List.take_take]
  congr 1
  rw [min_eq_left (Nat.sub_le c A.length)]

theorem run_fresh_keys (maxsize : Nat)
    (net : Nat → String → Option (List String)) :
    ∀ (names : List String) (s : CacheState),
      names.Nodup →
      (∀ m ∈ names, lookupEntry s.entries m = none) →
      s.entries.length ≤ maxsize →
      ((run_target_tags maxsize net s names).2.entries.map Prod.fst =
        (names.reverse ++ s.entries.map Prod.fst).take maxsize) ∧
      ((run_target_tags maxsize net s names).2.calls =
        s.calls + names.length) := by
  intro names
  induction names with
  | nil =>
    intro s _ _ hlen
    simp only [run_target_tags, List.reverse_nil, List.nil_append,
      List.length_nil, Nat.add_zero]
    rw [List.take_of_length_le (by rw [List.length_map]; exact hlen)]
    exact ⟨rfl, by trivial⟩
  | cons n ns ih =>
    intro s hnd hfresh hlen
    have hnd2 := List.nodup_cons.mp hnd
    have hmiss := miss_state maxsize net s n (hfresh n (by simp)) hlen
    have hkeys' :
        (get_target_tags maxsize net s n).2.1.entries.map Prod.fst =
          (n :: s.entries.map Prod.fst).take maxsize := by
      rw [hmiss.1, List.map_take]
      rfl
    have hfresh' : ∀ m ∈ ns,
        lookupEntry (get_target_tags maxsize net s n).2.1.entries m =
          none := by
      intro m hm
      rw [lookupEntry_eq_none, hkeys']
      intro hmem
      rcases List.mem_cons.mp (List.mem_of_mem_take hmem) with h | h
      · exact hnd2.1 (h ▸ hm)
      · exact (lookupEntry_eq_none s.entries m).mp
          (hfresh m (by simp [hm])) h
    have hlen' :
        (get_target_tags maxsize net s n).2.1.entries.length ≤ maxsize := by
      rw [hmiss.1]
      exact List.length_take_le _ _
    obtain ⟨ihk, ihc⟩ :=
      ih ((get_target_tags maxsize net s n).2.1) hnd2.2 hfresh' hlen'
    constructor
    · simp only [run_target_tags]
      rw [ihk, hkeys']
      rw [show (n :: s.entries.map Prod.fst) =
        [n] ++ s.entries.map Prod.fst from rfl]
      rw [take_append_take]
      simp [List.reverse_cons, List.append_assoc]
    · simp only [run_target_tags]
      rw [ihc, hmiss.2]
      simp only [List.length_cons]
      omega

theorem run_head_miss (maxsize : Nat)
    (net : Nat → String → Option (List String)) (s : CacheState)
    (n : String) (ns : List String)
    (h : lookupEntry s.entries n = none) :
    (run_target_tags maxsize net s (n :: ns)).1[0]? =
      some (fetchTargetTags net s.calls n, true) := by
  simp only [run_target_tags, List.getElem?_cons_zero, get_target_tags, h]

theorem run_target_tags_append (maxsize : Nat)
    (net : Nat → String → Option (List String)) :
    ∀ (as bs : List String) (s : CacheState),
      (run_target_tags maxsize net s (as ++ bs)).1 =
        (run_target_tags maxsize net s as).1 ++
          (run_target_tags maxsize net
            (run_target_tags maxsize net s as).2 bs).1 ∧
      (run_target_tags maxsize net s (as ++ bs)).2 =
        (run_target_tags maxsize net
          (run_target_tags maxsize net s as).2 bs).2 := by
  intro as
  induction as with
  | nil =>
    intro bs s
    simp [run_target_tags]
  | cons a as ih =>
    intro bs s
    obtain ⟨h1, h2⟩ := ih bs ((get_target_tags maxsize net s a).2.1)
    simp only [List.cons_append, run_target_tags, List.append_eq]
    constructor
    · rw [h1]
    · rw [h2]

theorem run_target_tags_length (maxsize : Nat)
    (net : Nat → String → Option (List String)) :
    ∀ (names : List String) (s : CacheState),
      (run_target_tags maxsize net s names).1.length = names.length := by
  intro names
  induction names with
  | nil =>
    intro s
    rfl
  | cons n ns ih =>
    intro s
    simp only [run_target_tags, List.length_cons, ih]

/-- Pairwise-distinct image names for the eviction counterexample. -/
def cname (i : Nat) : String := String.mk (List.replicate (i + 1) 'a')

theorem cname_injective : Function.Injective cname := by
  intro i j h
  have hd : List.replicate (i + 1) 'a' = List.replicate (j + 1) 'a' := by
    injection h
  have hlen := congrArg List.length hd
  simp only [List.length_replicate] at hlen
  omega

/- ------------------------------------------------------------------ -/
/- Claim theorems: C9.                                                 -/
/- ------------------------------------------------------------------ -/

/-- C9 (amended): within one run, as long as at most `LRU_MAXSIZE =
1024` distinct image names are looked up (the `lru_cache` capacity),
every call after the first for the same name returns exactly the first
call's result without performing a new network lookup — including a
first call that failed and yielded the empty set.  Beyond 1024 distinct
names, LRU eviction can re-perform lookups (see the counterexample). -/
theorem c9_cached_idempotent (net : Nat → String → Option (List String))
    (names : List String) (hcap : names.dedup.length ≤ LRU_MAXSIZE)
    (i j : Nat) (hij : i < j) (n : String)
    (hi : names[i]? = some n) (hj : names[j]? = some n)
    (vi : List String) (bi : Bool)
    (houti : (run_target_tags LRU_MAXSIZE net ⟨[], 0⟩ names).1[i]? =
      some (vi, bi)) :
    (run_target_tags LRU_MAXSIZE net ⟨[], 0⟩ names).1[j]? =
      some (vi, false) := by
  apply run_repeat_lookup LRU_MAXSIZE net names ⟨[], 0⟩ (by simp) ?_ i j hij n
    hi hj vi bi houti
  show ((([] : List (String × List String)).map Prod.fst) ++
    names).toFinset.card ≤ LRU_MAXSIZE
  simp only [List.map_nil, List.nil_append]
  rw [List.card_toFinset]
  exact hcap

/-- C9 witness: on the call sequence `["a", "b", "a"]` with a constant
network, the first call for `"a"` fetches and the second returns the
cached result without a lookup. -/
theorem c9_witness :
    ((["a", "b", "a"] : List String).dedup.length ≤ LRU_MAXSIZE) ∧
    ((run_target_tags LRU_MAXSIZE (fun _ _ => some ["t"]) ⟨[], 0⟩
      ["a", "b", "a"]).1[0]? = some (["t"], true)) ∧
    ((run_target_tags LRU_MAXSIZE (fun _ _ => some ["t"]) ⟨[], 0⟩
      ["a", "b", "a"]).1[2]? = some (["t"], false)) := by
  refine ⟨by decide, by decide, ?_⟩
  exact c9_cached_idempotent (fun _ _ => some ["t"]) ["a", "b", "a"]
    (by decide) 0 2 (by omega) "a" rfl rfl ["t"] true (by decide)

/-- C9 counterexample: the cache is an `lru_cache(maxsize=1024)`, so the
claim fails once a run touches more than 1024 distinct names.  Look up
1025 pairwise-distinct names and then the first name again, on a network
that fails only on the very first fetch: the first call for the name
yields `[]` (a failure), but the repeat call — its entry evicted —
performs a NEW lookup (flag `true`) and returns `["x"] ≠ []`, refuting
both "without performing a new lookup" and "all later calls for that
name in the same run also yield the empty set". -/
theorem c9_counterexample :
    ((run_target_tags LRU_MAXSIZE
      (fun k _ => if k = 0 then none else some ["x"]) ⟨[], 0⟩
      ((List.range 1025).map cname ++ [cname 0])).1[0]? =
        some ([], true)) ∧
    ((run_target_tags LRU_MAXSIZE
      (fun k _ => if k = 0 then none else some ["x"]) ⟨[], 0⟩
      ((List.range 1025).map cname ++ [cname 0])).1[1025]? =
        some (["x"], true)) := by
  have hA : (List.range 1025).map cname =
      cname 0 :: (List.range 1024).map (fun i => cname (i + 1)) := by
    rw [List.range_succ_eq_map, List.map_cons, List.map_map]
    rfl
  constructor
  · rw [hA, List.cons_append]
    exact run_head_miss LRU_MAXSIZE _ ⟨[], 0⟩ (cname 0) _ rfl
  · have hnodup : ((List.range 1025).map cname).Nodup :=
      (List.nodup_range 1025).map cname_injective
    have hfresh0 : ∀ m ∈ (List.range 1025).map cname,
        lookupEntry ((⟨[], 0⟩ : CacheState)).entries m = none :=
      fun _ _ => rfl
    obtain ⟨hkeys, hcalls⟩ := run_fresh_keys LRU_MAXSIZE
      (fun k _ => if k = 0 then none else some ["x"])
      ((List.range 1025).map cname) ⟨[], 0⟩ hnodup hfresh0 (by simp)
    have hXlen : ((((List.range 1024).map Nat.succ).reverse).map
        cname).length = 1024 := by
      simp
    have hArev : ((List.range 1025).map cname).reverse =
        (((List.range 1024).map Nat.succ).reverse).map cname ++
          [cname 0] := by
      rw [List.range_succ_eq_map, List.map_cons, List.reverse_cons,
        List.map_reverse]
    have htake : ((((List.range 1025).map cname).reverse ++
        (([] : List (String × List String)).map Prod.fst)).take
          LRU_MAXSIZE) =
        (((List.range 1024).map Nat.succ).reverse).map cname := by
      show ((((List.range 1025).map cname).reverse ++ []).take 1024) = _
      rw [List.append_nil, hArev, List.take_left' hXlen]
    have hnotmem : cname 0 ∉
        ((run_target_tags LRU_MAXSIZE
          (fun k _ => if k = 0 then none else some ["x"]) ⟨[], 0⟩
          ((List.range 1025).map cname)).2.entries.map Prod.fst) := by
      rw [hkeys, htake]
      intro hmem
      rw [List.mem_map] at hmem
      obtain ⟨y, hy, hcy⟩ := hmem
      have hy0 : y = 0 := cname_injective hcy
      subst hy0
      rw [List.mem_reverse, List.mem_map] at hy
      obtain ⟨z, _, hz⟩ := hy
      exact Nat.succ_ne_zero z hz
    have hlookup : lookupEntry
        ((run_target_tags LRU_MAXSIZE
          (fun k _ => if k = 0 then none else some ["x"]) ⟨[], 0⟩
          ((List.range 1025).map cname)).2.entries) (cname 0) = none :=
      (lookupEntry_eq_none _ _).mpr hnotmem
    have hcalls' : (run_target_tags LRU_MAXSIZE
        (fun k _ => if k = 0 then none else some ["x"]) ⟨[], 0⟩
        ((List.range 1025).map cname)).2.calls = 1025 := by
      rw [hcalls]
      simp
    have happ := run_target_tags_append LRU_MAXSIZE
      (fun k _ => if k = 0 then none else some ["x"])
      ((List.range 1025).map cname) [cname 0] ⟨[], 0⟩
    have hlenA : (run_target_tags LRU_MAXSIZE
        (fun k _ => if k = 0 then none else some ["x"]) ⟨[], 0⟩
        ((List.range 1025).map cname)).1.length = 1025 := by
      rw [run_target_tags_length]
      simp
    rw [happ.1, List.getElem?_append_right (by rw [hlenA]), hlenA]
    have hfinal := run_head_miss LRU_MAXSIZE
      (fun k _ => if k = 0 then none else some ["x"])
      ((run_target_tags LRU_MAXSIZE
        (fun k _ => if k = 0 then none else some ["x"]) ⟨[], 0⟩
        ((List.range 1025).map cname)).2) (cname 0) [] hlookup
    rw [show (1025 - 1025 : Nat) = 0 from rfl, hfinal, hcalls']
    rfl
